import Mathlib

/-!
Verification of the PagePilot lexical retrieval core.

This file is a shallow embedding, in Lean 4, of the algorithmic core of the
PagePilot extension: the n-gram generator (`src/text-processor.ts`), the
TF-IDF weighting engine (`src/tfidf-calculator.ts`), the vocabulary builder
(`src/vocabulary-builder.ts`), the similarity-ranked retrieval stage
(`src/embeddings.ts`), the configuration validator
(`src/config/validation.ts`) and the content-driven configuration optimizer
(`enhanced-embedding-generator`).  JavaScript numbers are modelled as real
numbers (`ℝ`) where `Math.log` is involved and as rationals (`ℚ`) elsewhere;
JavaScript `Map`s with `get(k) || 0` are modelled as total functions with
default `0`.  Theorems below settle the behavioural claims about this code.
-/

namespace PagePilot

/-- Model of JavaScript `str.trim()`: whitespace stripped from both ends. -/
def jsTrim (s : String) : String :=
  ⟨((s.data.dropWhile Char.isWhitespace).reverse.dropWhile Char.isWhitespace).reverse⟩

/-- Model of JavaScript `str.toLowerCase()` (character-wise lowering; the
source only ever lowercases to compare tokens). -/
def jsToLower (s : String) : String :=
  ⟨s.data.map Char.toLower⟩

/-- Maximal whitespace-free runs of a character list, in order. -/
def wsRunsAux : List Char → List Char → List (List Char)
  | [], acc => if acc = [] then [] else [acc.reverse]
  | c :: cs, acc =>
    if c.isWhitespace then
      (if acc = [] then wsRunsAux cs [] else acc.reverse :: wsRunsAux cs [])
    else wsRunsAux cs (c :: acc)

/-- Whether a character list starts with a whitespace character. -/
def headIsWs : List Char → Bool
  | [] => false
  | c :: _ => c.isWhitespace

/-- Model of JavaScript `str.split(/\s+/)`: the maximal whitespace-free runs
of the string, with an extra empty token at the front when the string starts
with whitespace and at the back when it ends with whitespace (this is what
the JS regex split produces); the empty string splits to `[""]`. -/
def jsSplitWs (s : String) : List String :=
  match s.data with
  | [] => [""]
  | c :: cs =>
    (if c.isWhitespace then [""] else [])
      ++ (wsRunsAux (c :: cs) []).map (fun l => String.mk l)
      ++ (if headIsWs (c :: cs).reverse then [""] else [])

/-- Model of iterating a JavaScript `Set` built by insertion: duplicates are
dropped, first occurrences kept in order (`Array.from(new Set(xs))`). -/
def jsDedup {α : Type} [BEq α] (xs : List α) : List α :=
  xs.eraseDups

/-- Supported languages (`Language` enum in `src/text-processor.ts`). -/
inductive Language where
  | english
  | portuguese
deriving DecidableEq, Repr

/-- ProcessedText record from `src/text-processor.ts`: the post-processing
word sequence, its n-gram expansion, and the detected language. -/
structure ProcessedText where
  words : List String
  ngrams : List String
  language : Language

/-- Model of `TextProcessor.generateNgrams` (src/text-processor.ts, lines
239-256): for each requested size `n`, append the words themselves when
`n = 1`, otherwise, when `n <= words.length`, append every window
the window of `n` words starting at `i`, joined by a single space, for
`i = 0 .. words.length - n`. -/
def TextProcessor.generateNgrams (words : List String) (ngramSizes : List ℕ) : List String :=
  ngramSizes.foldl
    (fun ngrams n =>
      if n = 1 then ngrams ++ words
      else if n ≤ words.length then
        ngrams ++ (List.range (words.length - n + 1)).map
          (fun i => String.intercalate " " ((words.drop i).take n))
      else ngrams)
    []

/-- The spec's description of the per-size emission: the literal words for
`n = 1`, otherwise every contiguous window of length `n` joined by a single
space in left-to-right order, nothing when `n` exceeds the word count. -/
def ngramsOfSizeSpec (words : List String) (n : ℕ) : List String :=
  if n = 1 then words
  else if n ≤ words.length then
    (List.range (words.length + 1 - n)).map
      (fun i => String.intercalate " " ((words.drop i).take n))
  else []

lemma generateNgrams_foldl (words : List String) (sizes : List ℕ) (acc : List String) :
    sizes.foldl
      (fun ngrams n =>
        if n = 1 then ngrams ++ words
        else if n ≤ words.length then
          ngrams ++ (List.range (words.length - n + 1)).map
            (fun i => String.intercalate " " ((words.drop i).take n))
        else ngrams)
      acc = acc ++ (sizes.map (ngramsOfSizeSpec words)).flatten := by
  induction sizes generalizing acc with
  | nil => simp
  | cons n rest ih =>
      simp only [List.foldl_cons, List.map_cons, List.flatten_cons, ih]
      by_cases h1 : n = 1
      · simp [h1, ngramsOfSizeSpec]
      · by_cases h2 : n ≤ words.length
        · have hrange : words.length - n + 1 = words.length + 1 - n := by omega
          simp [h1, h2, ngramsOfSizeSpec, hrange]
        · simp [h1, h2, ngramsOfSizeSpec]

/-- Claim C9: `generateNgrams` emits, for each size `n` in the given order,
the words themselves when `n = 1`, otherwise every contiguous window of
length `n` joined by a single space in left-to-right order, sizes larger
than the word count contributing nothing, outputs concatenated per size in
the order the sizes were given; and for every non-empty word sequence `w`,
`generateNgrams(w, [1]) = w`. -/
theorem generateNgrams_spec (words : List String) (sizes : List ℕ) :
    TextProcessor.generateNgrams words sizes
        = (sizes.map (ngramsOfSizeSpec words)).flatten
      ∧ (words ≠ [] → TextProcessor.generateNgrams words [1] = words) := by
  constructor
  · simpa using generateNgrams_foldl words sizes []
  · intro _
    simp [TextProcessor.generateNgrams]

/-- Witness for C9 at a concrete input: the unigrams-plus-bigrams expansion
of a two-word sequence, and the unigram identity on a non-empty sequence. -/
theorem generateNgrams_spec_witness :
    TextProcessor.generateNgrams ["big", "cat"] [1, 2]
        = ([1, 2].map (ngramsOfSizeSpec ["big", "cat"])).flatten
      ∧ ["big", "cat"] ≠ ([] : List String)
      ∧ TextProcessor.generateNgrams ["big", "cat"] [1] = ["big", "cat"] := by
  refine ⟨(generateNgrams_spec ["big", "cat"] [1, 2]).1, by simp, ?_⟩
  exact (generateNgrams_spec ["big", "cat"] [1]).2 (by simp)

/-- Vocabulary record from `src/vocabulary-builder.ts`.  The JS
`documentFrequency` map with `get(term) || 0` access is modelled as a total
function defaulting to `0`; `termToIndex` is positional in `terms` and not
needed by the claims. -/
structure Vocabulary where
  terms : List String
  documentFrequency : String → ℕ
  totalDocuments : ℕ

/-- The three configuration fields of the `TFIDFCalculator` class
(src/tfidf-calculator.ts, lines 23-32). -/
structure TFIDFCalculator where
  tfidfWeight : ℝ
  useLogTF : Bool
  useSmoothedIDF : Bool

/-- Model of `TFIDFCalculator.countTerms` followed by `get(term) || 0`
(src/tfidf-calculator.ts, lines 190-200): occurrences of `term` among the
n-grams whose trimmed form is non-empty. -/
def TFIDFCalculator.countTerms (ngrams : List String) (term : String) : ℕ :=
  (ngrams.filter (fun g => jsTrim g ≠ "")).count term

/-- Model of `TFIDFCalculator.calculateTF` (src/tfidf-calculator.ts, lines
137-149). -/
noncomputable def TFIDFCalculator.calculateTF (c : TFIDFCalculator)
    (termCount totalTerms : ℕ) : ℝ :=
  if totalTerms = 0 then 0
  else
    let rawTF : ℝ := (termCount : ℝ) / (totalTerms : ℝ)
    if c.useLogTF then (if 0 < termCount then 1 + Real.log rawTF else 0)
    else rawTF

/-- Model of `TFIDFCalculator.calculateIDF` (src/tfidf-calculator.ts, lines
155-185). -/
noncomputable def TFIDFCalculator.calculateIDF (c : TFIDFCalculator)
    (term : String) (v : Vocabulary) : ℝ :=
  let df := v.documentFrequency term
  let N := v.totalDocuments
  if df = 0 ∨ N = 0 then 1
  else if N < 10 then
    if c.useSmoothedIDF then Real.log (((N : ℝ) + 1) / ((df : ℝ) + 1)) + 0.5
    else max 0.1 (((N : ℝ) - (df : ℝ) + 1) / (N : ℝ))
  else
    if c.useSmoothedIDF then Real.log ((N : ℝ) / (df : ℝ)) + 1
    else Real.log ((N : ℝ) / (df : ℝ))

/-- Model of `TFIDFCalculator.createWeightedEmbedding`
(src/tfidf-calculator.ts, lines 101-132): one entry per vocabulary term;
terms absent from the document keep the initial `0`; present terms get
either `tfidfWeights[i] * termCount` (when a weight vector is supplied and
defined at `i`) or the on-the-fly blend
`tfidfWeight * tf * idf + (1 - tfidfWeight) * termCount`. -/
noncomputable def TFIDFCalculator.createWeightedEmbedding (c : TFIDFCalculator)
    (processedText : ProcessedText) (v : Vocabulary)
    (tfidfWeights : Option (List ℝ)) : List ℝ :=
  let totalTerms := processedText.ngrams.length
  (List.range v.terms.length).map (fun i =>
    let term := v.terms.getD i ""
    let termCount := TFIDFCalculator.countTerms processedText.ngrams term
    if 0 < termCount then
      let tf := c.calculateTF termCount totalTerms
      let idf := c.calculateIDF term v
      let flyValue := c.tfidfWeight * (tf * idf) + (1 - c.tfidfWeight) * (termCount : ℝ)
      match tfidfWeights with
      | some ws => if i < ws.length then ws.getD i 0 * (termCount : ℝ) else flyValue
      | none => flyValue
    else 0)

/-- Concrete vocabulary: ten documents, the term `"api"` in all ten. -/
def vocabAllDocs : Vocabulary :=
  { terms := ["api"]
    documentFrequency := fun t => if t = "api" then 10 else 0
    totalDocuments := 10 }

/-- Concrete vocabulary: ten documents, the term `"api"` in two of them. -/
def vocabTwoOfTen : Vocabulary :=
  { terms := ["api"]
    documentFrequency := fun t => if t = "api" then 2 else 0
    totalDocuments := 10 }

/-- Concrete vocabulary: five documents, the term `"api"` in two of them. -/
def vocabTwoOfFive : Vocabulary :=
  { terms := ["api"]
    documentFrequency := fun t => if t = "api" then 2 else 0
    totalDocuments := 5 }

/-- Counterexample to claim C1 as stated: for a term present in the
Vocabulary (document frequency 10 out of 10 documents), with smoothing
turned off, `calculateIDF` returns exactly `0` (`ln(10/10) = 0`). -/
theorem calculateIDF_zero_at_full_df :
    "api" ∈ vocabAllDocs.terms
      ∧ vocabAllDocs.documentFrequency "api" = 10
      ∧ vocabAllDocs.totalDocuments = 10
      ∧ TFIDFCalculator.calculateIDF ⟨1, true, false⟩ "api" vocabAllDocs = 0 := by
  refine ⟨by simp [vocabAllDocs], by simp [vocabAllDocs], rfl, ?_⟩
  have hdf : vocabAllDocs.documentFrequency "api" = 10 := by simp [vocabAllDocs]
  have hN : vocabAllDocs.totalDocuments = 10 := rfl
  simp only [TFIDFCalculator.calculateIDF, hdf, hN]
  norm_num

/-- Claim C1 (amended): for every term of the Vocabulary with document
frequency `df` in `[1, N]`, the IDF is nonzero whenever smoothing is on, or
the corpus is small (`N < 10`), or `df < N`; the one exception, shown by
the counterexample, is the unsmoothed large-corpus case with `df = N`,
where `ln(N/df) = 0`. -/
theorem calculateIDF_ne_zero_amended (c : TFIDFCalculator) (v : Vocabulary) (t : String)
    (hdf1 : 1 ≤ v.documentFrequency t)
    (hdfN : v.documentFrequency t ≤ v.totalDocuments)
    (hbranch : c.useSmoothedIDF = true ∨ v.totalDocuments < 10
        ∨ v.documentFrequency t < v.totalDocuments) :
    c.calculateIDF t v ≠ 0 := by
  have hN1 : 1 ≤ v.totalDocuments := le_trans hdf1 hdfN
  have hne : ¬(v.documentFrequency t = 0 ∨ v.totalDocuments = 0) := by omega
  have hdfpos : (0 : ℝ) < (v.documentFrequency t : ℝ) := by exact_mod_cast hdf1
  simp only [TFIDFCalculator.calculateIDF, hne, if_false]
  by_cases hsmall : v.totalDocuments < 10
  · simp only [hsmall, if_true]
    cases hsm : c.useSmoothedIDF with
    | true =>
        have hratio : (1 : ℝ) ≤ ((v.totalDocuments : ℝ) + 1) / ((v.documentFrequency t : ℝ) + 1) := by
          rw [le_div_iff₀ (by positivity)]
          have : (v.documentFrequency t : ℝ) ≤ (v.totalDocuments : ℝ) := by exact_mod_cast hdfN
          linarith
        have := Real.log_nonneg hratio
        simp only [if_true]
        intro hzero
        norm_num at hzero
        linarith
    | false =>
        simp only [Bool.false_eq_true, if_false]
        intro hzero
        have h1 : (0.1 : ℝ) ≤ max 0.1 (((v.totalDocuments : ℝ) - (v.documentFrequency t : ℝ) + 1) / (v.totalDocuments : ℝ)) :=
          le_max_left _ _
        rw [hzero] at h1
        norm_num at h1
  · simp only [hsmall, if_false]
    have hratio : (1 : ℝ) ≤ (v.totalDocuments : ℝ) / (v.documentFrequency t : ℝ) := by
      rw [le_div_iff₀ hdfpos]
      have : (v.documentFrequency t : ℝ) ≤ (v.totalDocuments : ℝ) := by exact_mod_cast hdfN
      linarith
    cases hsm : c.useSmoothedIDF with
    | true =>
        have := Real.log_nonneg hratio
        simp only [if_true]
        intro hzero
        linarith
    | false =>
        simp only [Bool.false_eq_true, if_false]
        rcases hbranch with hb | hb | hb
        · rw [hsm] at hb; exact absurd hb (by simp)
        · omega
        · have hlt : (1 : ℝ) < (v.totalDocuments : ℝ) / (v.documentFrequency t : ℝ) := by
            rw [lt_div_iff₀ hdfpos]
            have : (v.documentFrequency t : ℝ) < (v.totalDocuments : ℝ) := by exact_mod_cast hb
            linarith
          exact ne_of_gt (Real.log_pos hlt)

/-- Witness for the amended C1: a term in two of ten documents with
smoothing off has nonzero IDF. -/
theorem calculateIDF_ne_zero_amended_witness :
    1 ≤ vocabTwoOfTen.documentFrequency "api"
      ∧ vocabTwoOfTen.documentFrequency "api" ≤ vocabTwoOfTen.totalDocuments
      ∧ ((true : Bool) = true ∨ vocabTwoOfTen.totalDocuments < 10
          ∨ vocabTwoOfTen.documentFrequency "api" < vocabTwoOfTen.totalDocuments)
      ∧ TFIDFCalculator.calculateIDF ⟨1, true, false⟩ "api" vocabTwoOfTen ≠ 0 := by
  refine ⟨by simp [vocabTwoOfTen], by simp [vocabTwoOfTen], by simp, ?_⟩
  exact calculateIDF_ne_zero_amended ⟨1, true, false⟩ vocabTwoOfTen "api"
    (by simp [vocabTwoOfTen]) (by simp [vocabTwoOfTen])
    (Or.inr (Or.inr (by simp [vocabTwoOfTen])))

/-- Claim C2: for document frequency `df ≥ 1` in a vocabulary of `N ≥ 1`
documents, `calculateIDF` returns exactly `ln((N+1)/(df+1)) + 0.5`
(small corpus, smoothed), `max(0.1, (N-df+1)/N)` (small corpus,
unsmoothed), `ln(N/df) + 1` (large corpus, smoothed), `ln(N/df)` (large
corpus, unsmoothed), and returns `1` whenever `df = 0` or `N = 0`. -/
theorem calculateIDF_formula_cases (c : TFIDFCalculator) (v : Vocabulary) (t : String)
    (df N : ℕ) (hdf : v.documentFrequency t = df) (hN : v.totalDocuments = N) :
    (df = 0 ∨ N = 0 → c.calculateIDF t v = 1)
      ∧ (1 ≤ df → 1 ≤ N → N < 10 → c.useSmoothedIDF = true →
          c.calculateIDF t v = Real.log (((N : ℝ) + 1) / ((df : ℝ) + 1)) + 0.5)
      ∧ (1 ≤ df → 1 ≤ N → N < 10 → c.useSmoothedIDF = false →
          c.calculateIDF t v = max 0.1 (((N : ℝ) - (df : ℝ) + 1) / (N : ℝ)))
      ∧ (1 ≤ df → 10 ≤ N → c.useSmoothedIDF = true →
          c.calculateIDF t v = Real.log ((N : ℝ) / (df : ℝ)) + 1)
      ∧ (1 ≤ df → 10 ≤ N → c.useSmoothedIDF = false →
          c.calculateIDF t v = Real.log ((N : ℝ) / (df : ℝ))) := by
  refine ⟨?_, ?_, ?_, ?_, ?_⟩
  · intro h
    simp only [TFIDFCalculator.calculateIDF, hdf, hN]
    rw [if_pos h]
  · intro h1 h2 h3 hsm
    have hne : ¬(df = 0 ∨ N = 0) := by omega
    simp only [TFIDFCalculator.calculateIDF, hdf, hN, hne, if_false, h3, if_true, hsm]
  · intro h1 h2 h3 hsm
    have hne : ¬(df = 0 ∨ N = 0) := by omega
    simp only [TFIDFCalculator.calculateIDF, hdf, hN, hne, if_false, h3, if_true, hsm,
      Bool.false_eq_true]
  · intro h1 h2 hsm
    have hne : ¬(df = 0 ∨ N = 0) := by omega
    have h10 : ¬(N < 10) := by omega
    simp only [TFIDFCalculator.calculateIDF, hdf, hN, hne, if_false, h10, hsm, if_true]
  · intro h1 h2 hsm
    have hne : ¬(df = 0 ∨ N = 0) := by omega
    have h10 : ¬(N < 10) := by omega
    simp only [TFIDFCalculator.calculateIDF, hdf, hN, hne, if_false, h10, hsm,
      Bool.false_eq_true]

/-- Witness for C2: each of the five formula cases evaluated on concrete
vocabularies (df 2 of 5, df 2 of 10) and an out-of-vocabulary term. -/
theorem calculateIDF_formula_cases_witness :
    TFIDFCalculator.calculateIDF ⟨1, true, true⟩ "api" vocabTwoOfFive
        = Real.log (((5 : ℝ) + 1) / ((2 : ℝ) + 1)) + 0.5
      ∧ TFIDFCalculator.calculateIDF ⟨1, true, false⟩ "api" vocabTwoOfFive
          = max 0.1 (((5 : ℝ) - (2 : ℝ) + 1) / (5 : ℝ))
      ∧ TFIDFCalculator.calculateIDF ⟨1, true, true⟩ "api" vocabTwoOfTen
          = Real.log ((10 : ℝ) / (2 : ℝ)) + 1
      ∧ TFIDFCalculator.calculateIDF ⟨1, true, false⟩ "api" vocabTwoOfTen
          = Real.log ((10 : ℝ) / (2 : ℝ))
      ∧ TFIDFCalculator.calculateIDF ⟨1, true, true⟩ "zz" vocabTwoOfFive = 1 := by
  refine ⟨?_, ?_, ?_, ?_, ?_⟩
  · exact (calculateIDF_formula_cases ⟨1, true, true⟩ vocabTwoOfFive "api" 2 5 rfl rfl).2.1
      (by norm_num) (by norm_num) (by norm_num) rfl
  · exact (calculateIDF_formula_cases ⟨1, true, false⟩ vocabTwoOfFive "api" 2 5 rfl rfl).2.2.1
      (by norm_num) (by norm_num) (by norm_num) rfl
  · exact (calculateIDF_formula_cases ⟨1, true, true⟩ vocabTwoOfTen "api" 2 10 rfl rfl).2.2.2.1
      (by norm_num) (by norm_num) rfl
  · exact (calculateIDF_formula_cases ⟨1, true, false⟩ vocabTwoOfTen "api" 2 10 rfl rfl).2.2.2.2
      (by norm_num) (by norm_num) rfl
  · exact (calculateIDF_formula_cases ⟨1, true, true⟩ vocabTwoOfFive "zz" 0 5 rfl rfl).1
      (Or.inl rfl)

lemma createWeightedEmbedding_getD (c : TFIDFCalculator) (pt : ProcessedText)
    (v : Vocabulary) (i : ℕ) (hi : i < v.terms.length) :
    (c.createWeightedEmbedding pt v none).getD i 0
      = (if 0 < TFIDFCalculator.countTerms pt.ngrams (v.terms.getD i "") then
          c.tfidfWeight
              * (c.calculateTF (TFIDFCalculator.countTerms pt.ngrams (v.terms.getD i ""))
                    pt.ngrams.length
                * c.calculateIDF (v.terms.getD i "") v)
            + (1 - c.tfidfWeight)
              * (TFIDFCalculator.countTerms pt.ngrams (v.terms.getD i "") : ℝ)
        else 0) := by
  simp only [TFIDFCalculator.createWeightedEmbedding, List.getD_eq_getElem?_getD,
    List.getElem?_map, List.getElem?_range hi]
  rfl

/-- Claim C3: for every processed text, vocabulary and mixing weight `w` in
`[0, 1]`, the entry of the weighted vector at the index of a vocabulary term
occurring in the document with count `c > 0` is `w*tf*idf + (1-w)*c`, and
`0` at the index of every vocabulary term absent from the document; `w = 1`
yields pure TF-IDF and `w = 0` yields the raw count. -/
theorem createWeightedEmbedding_blend (lt lsm : Bool) (w : ℝ)
    (hw0 : 0 ≤ w) (hw1 : w ≤ 1) (pt : ProcessedText) (v : Vocabulary)
    (i : ℕ) (hi : i < v.terms.length) (t : String) (ht : v.terms.getD i "" = t)
    (cnt : ℕ) (hcnt : TFIDFCalculator.countTerms pt.ngrams t = cnt) :
    ((TFIDFCalculator.mk w lt lsm).createWeightedEmbedding pt v none).getD i 0
        = (if 0 < cnt then
            w * ((TFIDFCalculator.mk w lt lsm).calculateTF cnt pt.ngrams.length
                  * (TFIDFCalculator.mk w lt lsm).calculateIDF t v)
              + (1 - w) * (cnt : ℝ)
          else 0)
      ∧ ((TFIDFCalculator.mk 1 lt lsm).createWeightedEmbedding pt v none).getD i 0
          = (if 0 < cnt then
              (TFIDFCalculator.mk 1 lt lsm).calculateTF cnt pt.ngrams.length
                * (TFIDFCalculator.mk 1 lt lsm).calculateIDF t v
            else 0)
      ∧ ((TFIDFCalculator.mk 0 lt lsm).createWeightedEmbedding pt v none).getD i 0
          = (cnt : ℝ) := by
  have htf : ∀ w1 w2 : ℝ, (TFIDFCalculator.mk w1 lt lsm).calculateTF cnt pt.ngrams.length
      = (TFIDFCalculator.mk w2 lt lsm).calculateTF cnt pt.ngrams.length := by
    intro w1 w2; rfl
  have hidf : ∀ w1 w2 : ℝ, (TFIDFCalculator.mk w1 lt lsm).calculateIDF t v
      = (TFIDFCalculator.mk w2 lt lsm).calculateIDF t v := by
    intro w1 w2; rfl
  refine ⟨?_, ?_, ?_⟩
  · rw [createWeightedEmbedding_getD _ _ _ _ hi, ht, hcnt]
  · rw [createWeightedEmbedding_getD _ _ _ _ hi, ht, hcnt]
    split_ifs with h <;> ring
  · rw [createWeightedEmbedding_getD _ _ _ _ hi, ht, hcnt]
    split_ifs with h
    · ring
    · have : cnt = 0 := by omega
      simp [this]

/-- Processed text whose n-grams are `["a", "b", "b"]` (the term `"a"`
occurs once among three n-grams). -/
def ptOneOfThree : ProcessedText :=
  { words := ["a", "b", "b"], ngrams := ["a", "b", "b"], language := Language.english }

/-- Single-document vocabulary containing only the term `"a"`. -/
def vocabSingleA : Vocabulary :=
  { terms := ["a"]
    documentFrequency := fun t => if t = "a" then 1 else 0
    totalDocuments := 1 }

/-- Witness for C3 on a concrete input: the term `"a"` occurs once among
three n-grams, and the three blend equations hold at index `0`. -/
theorem createWeightedEmbedding_blend_witness :
    (0 : ℝ) ≤ 0.5 ∧ (0.5 : ℝ) ≤ 1 ∧ 0 < vocabSingleA.terms.length
      ∧ vocabSingleA.terms.getD 0 "" = "a"
      ∧ TFIDFCalculator.countTerms ptOneOfThree.ngrams "a" = 1
      ∧ (((TFIDFCalculator.mk 0.5 false true).createWeightedEmbedding
              ptOneOfThree vocabSingleA none).getD 0 0
            = (if 0 < 1 then
                0.5 * ((TFIDFCalculator.mk 0.5 false true).calculateTF 1
                        ptOneOfThree.ngrams.length
                      * (TFIDFCalculator.mk 0.5 false true).calculateIDF "a" vocabSingleA)
                  + (1 - 0.5) * ((1 : ℕ) : ℝ)
              else 0)
          ∧ ((TFIDFCalculator.mk 1 false true).createWeightedEmbedding
                ptOneOfThree vocabSingleA none).getD 0 0
            = (if 0 < 1 then
                (TFIDFCalculator.mk 1 false true).calculateTF 1 ptOneOfThree.ngrams.length
                  * (TFIDFCalculator.mk 1 false true).calculateIDF "a" vocabSingleA
              else 0)
          ∧ ((TFIDFCalculator.mk 0 false true).createWeightedEmbedding
                ptOneOfThree vocabSingleA none).getD 0 0
            = ((1 : ℕ) : ℝ)) := by
  refine ⟨by norm_num, by norm_num, by simp [vocabSingleA], rfl, by decide, ?_⟩
  exact createWeightedEmbedding_blend false true 0.5 (by norm_num) (by norm_num)
    ptOneOfThree vocabSingleA 0 (by simp [vocabSingleA]) "a" rfl 1 (by decide)

/-- Nonnegativity of the IDF under the documented Vocabulary invariant
`df ≤ totalDocuments`. -/
lemma calculateIDF_nonneg (c : TFIDFCalculator) (v : Vocabulary) (t : String)
    (h : v.documentFrequency t ≤ v.totalDocuments) :
    0 ≤ c.calculateIDF t v := by
  simp only [TFIDFCalculator.calculateIDF]
  by_cases hz : v.documentFrequency t = 0 ∨ v.totalDocuments = 0
  · rw [if_pos hz]; norm_num
  · rw [if_neg hz]
    have hdf1 : 1 ≤ v.documentFrequency t := by omega
    have hdfpos : (0 : ℝ) < (v.documentFrequency t : ℝ) := by exact_mod_cast hdf1
    have hle : (v.documentFrequency t : ℝ) ≤ (v.totalDocuments : ℝ) := by exact_mod_cast h
    by_cases hsmall : v.totalDocuments < 10
    · rw [if_pos hsmall]
      cases hsm : c.useSmoothedIDF with
      | true =>
          simp only [if_true]
          have hratio : (1 : ℝ) ≤ ((v.totalDocuments : ℝ) + 1) / ((v.documentFrequency t : ℝ) + 1) := by
            rw [le_div_iff₀ (by positivity)]
            linarith
          have := Real.log_nonneg hratio
          linarith
      | false =>
          simp only [Bool.false_eq_true, if_false]
          have h1 : (0.1 : ℝ) ≤ max 0.1 (((v.totalDocuments : ℝ) - (v.documentFrequency t : ℝ) + 1) / (v.totalDocuments : ℝ)) :=
            le_max_left _ _
          linarith
    · rw [if_neg hsmall]
      have hratio : (1 : ℝ) ≤ (v.totalDocuments : ℝ) / (v.documentFrequency t : ℝ) := by
        rw [le_div_iff₀ hdfpos]
        linarith
      have hlog := Real.log_nonneg hratio
      cases hsm : c.useSmoothedIDF with
      | true => simp only [if_true]; linarith
      | false => simp only [Bool.false_eq_true, if_false]; exact hlog

/-- Counterexample to claim C6 as stated: with logarithmic term frequency
(`useLogTF = true`, the `TFIDFCalculator` constructor default) and weight
`1`, the entry for a term occurring once among three n-grams is
`(1 + ln(1/3)) * 0.5 < 0` — the embedding vector has a negative entry. -/
theorem createWeightedEmbedding_negative_entry :
    "a" ∈ vocabSingleA.terms
      ∧ vocabSingleA.documentFrequency "a" ≤ vocabSingleA.totalDocuments
      ∧ ((TFIDFCalculator.mk 1 true true).createWeightedEmbedding
            ptOneOfThree vocabSingleA none).getD 0 0 < 0 := by
  refine ⟨by simp [vocabSingleA], by simp [vocabSingleA], ?_⟩
  have hlog3 : (1 : ℝ) < Real.log 3 := by
    rw [show (1 : ℝ) = Real.log (Real.exp 1) by rw [Real.log_exp]]
    exact Real.log_lt_log (Real.exp_pos 1) (lt_trans Real.exp_one_lt_d9 (by norm_num))
  have hcnt : TFIDFCalculator.countTerms ptOneOfThree.ngrams "a" = 1 := by decide
  have ht : vocabSingleA.terms.getD 0 "" = "a" := rfl
  rw [createWeightedEmbedding_getD _ _ _ _ (by simp [vocabSingleA]), ht, hcnt]
  have htf : (TFIDFCalculator.mk 1 true true).calculateTF 1 ptOneOfThree.ngrams.length
      = 1 + Real.log ((1 : ℝ) / 3) := by
    simp [TFIDFCalculator.calculateTF, ptOneOfThree]
  have hidf : (TFIDFCalculator.mk 1 true true).calculateIDF "a" vocabSingleA
      = Real.log ((2 : ℝ) / 2) + 0.5 := by
    have hdf : vocabSingleA.documentFrequency "a" = 1 := by simp [vocabSingleA]
    have hN : vocabSingleA.totalDocuments = 1 := rfl
    simp only [TFIDFCalculator.calculateIDF, hdf, hN]
    norm_num
  rw [if_pos (by norm_num), htf, hidf]
  have hlogthird : Real.log ((1 : ℝ) / 3) = -Real.log 3 := by
    rw [one_div, Real.log_inv]
  have h22 : Real.log ((2 : ℝ) / 2) = 0 := by norm_num
  rw [hlogthird, h22]
  nlinarith

/-- Claim C6 (amended): with raw term frequency (`useLogTF = false`, the
mode the shipped configurations use), every entry of the weighted embedding
is non-negative, for every mixing weight in `[0, 1]` and every vocabulary
satisfying the documented invariant `df ≤ totalDocuments`; the logarithmic
TF mode can produce negative entries, as the counterexample shows. -/
theorem createWeightedEmbedding_nonneg (lsm : Bool) (w : ℝ)
    (hw0 : 0 ≤ w) (hw1 : w ≤ 1) (pt : ProcessedText) (v : Vocabulary)
    (hv : ∀ s, v.documentFrequency s ≤ v.totalDocuments)
    (x : ℝ)
    (hx : x ∈ (TFIDFCalculator.mk w false lsm).createWeightedEmbedding pt v none) :
    0 ≤ x := by
  simp only [TFIDFCalculator.createWeightedEmbedding, List.mem_map,
    List.mem_range] at hx
  obtain ⟨i, _, hxval⟩ := hx
  subst hxval
  set t := v.terms.getD i "" with ht
  set cnt := TFIDFCalculator.countTerms pt.ngrams t with hcnt
  by_cases hpos : 0 < cnt
  · rw [if_pos hpos]
    have htf : 0 ≤ (TFIDFCalculator.mk w false lsm).calculateTF cnt pt.ngrams.length := by
      simp only [TFIDFCalculator.calculateTF]
      by_cases hz : pt.ngrams.length = 0
      · rw [if_pos hz]
      · rw [if_neg hz]
        simp only [Bool.false_eq_true, if_false]
        positivity
    have hidf : 0 ≤ (TFIDFCalculator.mk w false lsm).calculateIDF t v :=
      calculateIDF_nonneg _ v t (hv t)
    have hcnt0 : (0 : ℝ) ≤ (cnt : ℝ) := by positivity
    have h1 : 0 ≤ w * ((TFIDFCalculator.mk w false lsm).calculateTF cnt pt.ngrams.length
        * (TFIDFCalculator.mk w false lsm).calculateIDF t v) := by positivity
    have h2 : 0 ≤ (1 - w) * (cnt : ℝ) := mul_nonneg (by linarith) hcnt0
    linarith
  · rw [if_neg hpos]

/-- Witness for the amended C6: the first entry of a concrete raw-TF
embedding (weight `0.5`) is non-negative. -/
theorem createWeightedEmbedding_nonneg_witness :
    (0 : ℝ) ≤ 0.5 ∧ (0.5 : ℝ) ≤ 1
      ∧ 0 ≤ ((TFIDFCalculator.mk 0.5 false true).createWeightedEmbedding
          ptOneOfThree vocabSingleA none).getD 0 0 := by
  have hv : ∀ s, vocabSingleA.documentFrequency s ≤ vocabSingleA.totalDocuments := by
    intro s
    simp only [vocabSingleA]
    split_ifs <;> omega
  have hmem : ((TFIDFCalculator.mk 0.5 false true).createWeightedEmbedding
      ptOneOfThree vocabSingleA none).getD 0 0
        ∈ (TFIDFCalculator.mk 0.5 false true).createWeightedEmbedding
          ptOneOfThree vocabSingleA none := by
    simp [TFIDFCalculator.createWeightedEmbedding, vocabSingleA, List.range_succ]
  exact ⟨by norm_num, by norm_num,
    createWeightedEmbedding_nonneg true 0.5 (by norm_num) (by norm_num)
      ptOneOfThree vocabSingleA hv _ hmem⟩

/-- Insertion step of a stable sort: place `x` before the first element `y`
with `le x y`. -/
def stableInsert {α : Type} (le : α → α → Bool) (x : α) : List α → List α
  | [] => [x]
  | y :: ys => if le x y then x :: y :: ys else y :: stableInsert le x ys

/-- Stable insertion sort, modelling JavaScript `Array.prototype.sort`
(which is stable): elements comparing equal keep their input order. -/
def stableSort {α : Type} (le : α → α → Bool) : List α → List α
  | [] => []
  | x :: xs => stableInsert le x (stableSort le xs)

lemma mem_stableInsert {α : Type} (le : α → α → Bool) (x a : α) (l : List α) :
    a ∈ stableInsert le x l ↔ a = x ∨ a ∈ l := by
  induction l with
  | nil => simp [stableInsert]
  | cons y ys ih =>
      simp only [stableInsert]
      split_ifs with h
      · simp [or_comm, or_assoc, or_left_comm]
      · simp [ih, or_comm, or_assoc, or_left_comm]

lemma mem_stableSort {α : Type} (le : α → α → Bool) (a : α) (l : List α) :
    a ∈ stableSort le l ↔ a ∈ l := by
  induction l with
  | nil => simp [stableSort]
  | cons x xs ih => simp [stableSort, mem_stableInsert, ih]

lemma mem_eraseDupsLoop {α : Type} [BEq α] [LawfulBEq α] (a : α) (l acc : List α) :
    a ∈ List.eraseDups.loop l acc ↔ a ∈ l ∨ a ∈ acc := by
  induction l generalizing acc with
  | nil => simp [List.eraseDups.loop]
  | cons x xs ih =>
      cases hel : List.elem x acc with
      | true =>
          have hx : x ∈ acc := by simpa using hel
          simp only [List.eraseDups.loop, hel, ih, List.mem_cons]
          constructor
          · tauto
          · rintro (⟨rfl, -⟩ | hl | hacc) <;> tauto
      | false =>
          simp only [List.eraseDups.loop, hel, ih, List.mem_cons]
          tauto

lemma mem_jsDedup {α : Type} [BEq α] [LawfulBEq α] (a : α) (l : List α) :
    a ∈ jsDedup l ↔ a ∈ l := by
  simp [jsDedup, List.eraseDups, mem_eraseDupsLoop]

/-- Model of `VocabularyBuilder.buildVocabulary`
(src/vocabulary-builder.ts, lines 160-220), taking the builder's two
relevant options and the documents' n-gram lists.  Per document, n-grams
with non-empty trimmed form are collected into a set, so each term's
document-frequency counter grows by at most one per document; terms below
the minimum document frequency are dropped, survivors are sorted by
descending document frequency (stable) and truncated to the maximum
vocabulary size, and the final frequency map is restricted to the kept
terms. -/
def buildVocabulary (maxVocabularySize minDocumentFrequency : ℕ)
    (docs : List (List String)) : Vocabulary :=
  if docs = [] then
    { terms := [], documentFrequency := fun _ => 0, totalDocuments := 0 }
  else
    let rawDF : String → ℕ := fun t =>
      if jsTrim t ≠ "" then (docs.filter (fun d => t ∈ d)).length else 0
    let termSet := jsDedup (docs.flatten.filter (fun t => jsTrim t ≠ ""))
    let filteredTerms := termSet.filter (fun t => minDocumentFrequency ≤ rawDF t)
    let sortedTerms := stableSort (fun a b => rawDF b ≤ rawDF a) filteredTerms
    let finalTerms := sortedTerms.take maxVocabularySize
    { terms := finalTerms
      documentFrequency := fun t => if t ∈ finalTerms then rawDF t else 0
      totalDocuments := docs.length }

/-- Claim C5: building from `k` documents yields `totalDocuments = k`, every
retained term has document frequency in `[1, k]` (incremented at most once
per document, at least once because the term occurs somewhere), and
building from zero documents yields the empty Vocabulary. -/
theorem buildVocabulary_df_bounds (maxV minDF : ℕ) (docs : List (List String)) :
    (buildVocabulary maxV minDF docs).totalDocuments = docs.length
      ∧ (∀ t ∈ (buildVocabulary maxV minDF docs).terms,
          1 ≤ (buildVocabulary maxV minDF docs).documentFrequency t
            ∧ (buildVocabulary maxV minDF docs).documentFrequency t ≤ docs.length)
      ∧ (buildVocabulary maxV minDF []).terms = []
      ∧ (buildVocabulary maxV minDF []).totalDocuments = 0 := by
  refine ⟨?_, ?_, by simp [buildVocabulary], by simp [buildVocabulary]⟩
  · by_cases h : docs = []
    · subst h; simp [buildVocabulary]
    · simp [buildVocabulary, h]
  · intro t ht
    by_cases h : docs = []
    · subst h; simp [buildVocabulary] at ht
    · simp only [buildVocabulary, if_neg h] at ht ⊢
      rw [if_pos ht]
      have h1 := List.take_subset _ _ ht
      rw [mem_stableSort, List.mem_filter] at h1
      obtain ⟨h2, -⟩ := h1
      rw [mem_jsDedup, List.mem_filter] at h2
      obtain ⟨h3, h4⟩ := h2
      have htrim : jsTrim t ≠ "" := by simpa using h4
      rw [if_pos htrim]
      rw [List.mem_flatten] at h3
      obtain ⟨d, hd, htd⟩ := h3
      constructor
      · have hmemf : d ∈ docs.filter (fun d => t ∈ d) :=
          List.mem_filter.2 ⟨hd, by simpa using htd⟩
        have := List.length_pos_of_mem hmemf
        omega
      · exact List.length_filter_le _ _

/-- Witness for C5: two concrete documents sharing the term `"api"`. -/
theorem buildVocabulary_df_bounds_witness :
    (buildVocabulary 10 1 [["api", "x"], ["api"]]).totalDocuments = 2
      ∧ "api" ∈ (buildVocabulary 10 1 [["api", "x"], ["api"]]).terms
      ∧ 1 ≤ (buildVocabulary 10 1 [["api", "x"], ["api"]]).documentFrequency "api"
      ∧ (buildVocabulary 10 1 [["api", "x"], ["api"]]).documentFrequency "api"
          ≤ ([["api", "x"], ["api"]] : List (List String)).length := by
  have hmem : "api" ∈ (buildVocabulary 10 1 [["api", "x"], ["api"]]).terms := by decide
  have h := (buildVocabulary_df_bounds 10 1 [["api", "x"], ["api"]]).2.1 "api" hmem
  exact ⟨by decide, hmem, h.1, h.2⟩

/-- Chunk metadata attached to an enhanced embedding
(`ChunkMetadata` in the enhanced embedding generator). -/
structure ChunkMetadata where
  language : Language
  wordCount : ℕ
  ngramCount : ℕ
  processingTime : ℚ

/-- A stored chunk embedding (`{ chunk, embedding, metadata? }` as consumed
by the retrieval functions in `src/embeddings.ts`). -/
structure Embedding where
  chunk : String
  embedding : List ℚ
  metadata : Option ChunkMetadata

/-- A ranked retrieval result (`RelevanceResult` in `src/embeddings.ts`). -/
structure RelevanceResult where
  chunk : String
  similarity : ℚ
  metadata : Option ChunkMetadata

/-- Options of the enhanced retrieval function
(`EnhancedRetrievalOptions` in `src/embeddings.ts`), with the source's
defaults. -/
structure EnhancedRetrievalOptions where
  topK : ℕ := 3
  minSimilarity : ℚ := 0
  useMetadataBoost : Bool := true
  languagePreference : Option Language := none

/-- Model of `createBoW` (src/embeddings.ts, lines 114-124): entry `i`
counts the lowercased whitespace-split words of `text` whose `indexOf` in
`vocab` is `i` (absent words have `indexOf = -1` in JS, here
`vocab.length`, and hit no entry). -/
def createBoW (text : String) (vocab : List String) : List ℚ :=
  let words := jsSplitWs (jsToLower text)
  (List.range vocab.length).map
    (fun i => ((words.filter (fun w => List.indexOf w vocab = i)).length : ℚ))

/-- The vocabulary `findMostRelevantChunks` derives from the stored chunks
(src/embeddings.ts, lines 161-169): chunks joined by a space, lowercased,
whitespace-split, deduplicated in first-occurrence order. -/
def vocabOfEmbeddings (embeddings : List Embedding) : List String :=
  jsDedup (jsSplitWs (jsToLower
    (String.intercalate " " (embeddings.map (fun e => e.chunk)))))

/-- Model of `findMostRelevantChunks` (src/embeddings.ts, lines 151-187).
The similarity function `sim` stands for the external
`fast-cosine-similarity` package (cosine `dot(a,b)/(|a||b|)` per the spec);
it is a parameter because it is not repository code, and the claims settled
here hold for every `sim`.  The source returns `[]` for an empty embedding
list, builds the question's bag-of-words vector against the derived
vocabulary, returns `[]` immediately when that vector is entirely zero, and
otherwise sorts all chunks by descending similarity (stable), keeps those
with similarity strictly greater than `0`, and truncates to `topK`. -/
def findMostRelevantChunks (sim : List ℚ → List ℚ → ℚ) (question : String)
    (embeddings : List Embedding) (topK : ℕ) : List String :=
  if embeddings.length = 0 then []
  else
    let vocab := vocabOfEmbeddings embeddings
    let questionEmbedding := createBoW question vocab
    if questionEmbedding.all (fun v => v = 0) then []
    else
      let similarities := embeddings.map
        (fun e => (e.chunk, sim questionEmbedding e.embedding))
      let sorted := stableSort (fun a b => b.2 ≤ a.2) similarities
      ((sorted.filter (fun s => 0 < s.2)).take topK).map (fun s => s.1)

/-- Model of `applyMetadataBoost` (src/embeddings.ts, lines 446-479):
language-preference match scales by 1.1, word-count proximity scales by
`0.9 + min(wordCount/50, 1) * 0.2`, n-gram richness (when
`ngramCount > wordCount`) scales by `1 + (min(ngramCount/wordCount, 2) - 1)
* 0.05`, and the result is clamped to at most `1` (in `ℚ`, division by a
zero `wordCount` yields `0` instead of JS `Infinity`; the boost is applied
by the source only to chunks that survived embedding, whose word count is
positive). -/
def applyMetadataBoost (similarity : ℚ) (metadata : ChunkMetadata)
    (languagePreference : Option Language) : ℚ :=
  let languageBoosted :=
    match languagePreference with
    | some lp => if metadata.language = lp then similarity * 1.1 else similarity
    | none => similarity
  let wordCountRatio : ℚ := min ((metadata.wordCount : ℚ) / 50) 1
  let wordCountBoosted := languageBoosted * (0.9 + wordCountRatio * 0.2)
  let ngramBoosted :=
    if metadata.wordCount < metadata.ngramCount then
      wordCountBoosted
        * (1 + (min ((metadata.ngramCount : ℚ) / (metadata.wordCount : ℚ)) 2 - 1) * 0.05)
    else wordCountBoosted
  min ngramBoosted 1

/-- Model of `findMostRelevantChunksEnhanced` (src/embeddings.ts, lines
277-395).  The question vector is a parameter: the source builds it with
`generateSingleEmbedding` against the derived vocabulary when the enhanced
generator is initialized, or with the `createBoW` fallback otherwise, both
against the same stored chunks; every path then runs the code modelled
here: return `[]` for an empty embedding list, return `[]` immediately when
the question vector is entirely zero, otherwise score every chunk with
`sim`, optionally rescale by the metadata boost, sort descending (stable),
keep scores strictly above `minSimilarity`, truncate to `topK`. -/
def findMostRelevantChunksEnhanced (sim : List ℚ → List ℚ → ℚ)
    (questionEmbedding : List ℚ) (embeddings : List Embedding)
    (opts : EnhancedRetrievalOptions) : List RelevanceResult :=
  if embeddings.length = 0 then []
  else if questionEmbedding.all (fun v => v = 0) then []
  else
    let similarities := embeddings.map (fun e =>
      let rawSimilarity := sim questionEmbedding e.embedding
      let boosted :=
        match e.metadata with
        | some md =>
            if opts.useMetadataBoost then
              applyMetadataBoost rawSimilarity md opts.languagePreference
            else rawSimilarity
        | none => rawSimilarity
      RelevanceResult.mk e.chunk boosted e.metadata)
    let sorted := stableSort (fun a b => b.similarity ≤ a.similarity) similarities
    ((sorted.filter (fun s => opts.minSimilarity < s.similarity)).take opts.topK)

/-- Claim C4: when the query's vector built against the vocabulary is
entirely zero, both retrieval functions return the empty list, for every
similarity function, every `topK`/`minSimilarity` and every metadata
boosting option — the result does not depend on `sim` at all, so no cosine
similarity against the zero query vector can influence it, and boosting
never produces a non-empty result. -/
theorem zero_query_vector_yields_empty (sim : List ℚ → List ℚ → ℚ)
    (question : String) (embeddings : List Embedding) (topK : ℕ)
    (questionEmbedding : List ℚ) (opts : EnhancedRetrievalOptions)
    (hbasic : (createBoW question (vocabOfEmbeddings embeddings)).all
      (fun v => v = 0))
    (henhanced : questionEmbedding.all (fun v => v = 0)) :
    findMostRelevantChunks sim question embeddings topK = []
      ∧ findMostRelevantChunksEnhanced sim questionEmbedding embeddings opts = [] := by
  constructor
  · by_cases h : embeddings.length = 0
    · simp [findMostRelevantChunks, h]
    · simp [findMostRelevantChunks, h, hbasic]
  · by_cases h : embeddings.length = 0
    · simp [findMostRelevantChunksEnhanced, h]
    · simp [findMostRelevantChunksEnhanced, h, henhanced]

/-- Witness for C4: a query sharing no token with the single stored chunk
produces an all-zero vector and an empty result from both functions. -/
theorem zero_query_vector_yields_empty_witness :
    ((createBoW "zzz" (vocabOfEmbeddings [⟨"the dog", [1], none⟩])).all
        (fun v => v = 0)) = true
      ∧ findMostRelevantChunks (fun _ _ => 1) "zzz" [⟨"the dog", [1], none⟩] 3 = []
      ∧ findMostRelevantChunksEnhanced (fun _ _ => 1) [0] [⟨"the dog", [1], none⟩]
          ⟨3, 0, true, none⟩ = [] := by
  have h := zero_query_vector_yields_empty (fun _ _ => 1) "zzz"
    [⟨"the dog", [1], none⟩] 3 [0] ⟨3, 0, true, none⟩ (by decide) (by decide)
  exact ⟨by decide, h.1, h.2⟩

/-- Claim C10: every chunk returned by the basic retrieval function comes
from a stored embedding whose similarity to the question vector is strictly
positive — the function hard-filters to similarity `> 0` before truncating
to `topK`. -/
theorem findMostRelevantChunks_positive_similarity
    (sim : List ℚ → List ℚ → ℚ) (question : String)
    (embeddings : List Embedding) (topK : ℕ) (c : String)
    (hc : c ∈ findMostRelevantChunks sim question embeddings topK) :
    ∃ e ∈ embeddings, e.chunk = c
      ∧ 0 < sim (createBoW question (vocabOfEmbeddings embeddings)) e.embedding := by
  by_cases h1 : embeddings.length = 0
  · simp [findMostRelevantChunks, h1] at hc
  · by_cases h2 : (createBoW question (vocabOfEmbeddings embeddings)).all
        (fun v => v = 0)
    · simp [findMostRelevantChunks, h1, h2] at hc
    · simp only [findMostRelevantChunks, h1, h2, if_neg, if_false,
        Bool.false_eq_true, List.mem_map] at hc
      obtain ⟨s, hstake, rfl⟩ := hc
      have hsfilter := List.take_subset _ _ hstake
      rw [List.mem_filter] at hsfilter
      obtain ⟨hsort, hpos⟩ := hsfilter
      rw [mem_stableSort, List.mem_map] at hsort
      obtain ⟨e, he, rfl⟩ := hsort
      exact ⟨e, he, rfl, by simpa using hpos⟩

/-- Witness for C10: retrieving with a constant positive similarity over a
single matching chunk returns it, and its similarity is positive. -/
theorem findMostRelevantChunks_positive_similarity_witness :
    "the dog" ∈ findMostRelevantChunks (fun _ _ => 1) "dog"
        [⟨"the dog", [1], none⟩] 1
      ∧ 0 < (fun _ _ => (1 : ℚ))
          (createBoW "dog" (vocabOfEmbeddings [⟨"the dog", [1], none⟩]))
          ([1] : List ℚ) := by
  have hmem : "the dog" ∈ findMostRelevantChunks (fun _ _ => 1) "dog"
      [⟨"the dog", [1], none⟩] 1 := by decide
  obtain ⟨e, he, -, hpos⟩ := findMostRelevantChunks_positive_similarity
    (fun _ _ => 1) "dog" [⟨"the dog", [1], none⟩] 1 "the dog" hmem
  have heq : e = ⟨"the dog", [1], none⟩ := by simpa using he
  subst heq
  exact ⟨hmem, hpos⟩

/-- Processing limits (`ProcessingLimits` in src/types/config.ts).  JS
numbers checked with `Number.isInteger` are modelled as integers. -/
structure ProcessingLimits where
  maxVocabularySize : ℤ
  maxNgramSize : ℤ
  maxProcessingTimeMs : ℤ
  maxChunkSize : ℤ
deriving DecidableEq, Repr

/-- Vocabulary options (`VocabularyOptions` in src/types/config.ts). -/
structure VocabularyOptions where
  maxVocabularySize : ℤ
  minDocumentFrequency : ℤ
  ngramSizes : List ℤ
deriving DecidableEq, Repr

/-- TF-IDF options (`TFIDFOptions` in src/types/config.ts, all fields
optional). -/
structure TFIDFOptions where
  useLogTF : Option Bool
  useSmoothedIDF : Option Bool
  tfidfWeight : Option ℚ
deriving DecidableEq, Repr

/-- The full embedding configuration (`EmbeddingConfig` in
src/types/config.ts). -/
structure EmbeddingConfig where
  enableTFIDF : Bool
  enableStemming : Bool
  enableStopwordRemoval : Bool
  ngramSizes : List ℤ
  tfidfWeight : ℚ
  language : Option Language
  customStopwords : Option (List String)
  processingLimits : ProcessingLimits
  vocabularyOptions : Option VocabularyOptions
  tfidfOptions : Option TFIDFOptions
deriving DecidableEq, Repr

/-- A caller-supplied partial `ProcessingLimits`. -/
structure PartialProcessingLimits where
  maxVocabularySize : Option ℤ := none
  maxNgramSize : Option ℤ := none
  maxProcessingTimeMs : Option ℤ := none
  maxChunkSize : Option ℤ := none
deriving DecidableEq, Repr

/-- A caller-supplied partial configuration
(`Partial<EmbeddingConfig>`): every field may be absent. -/
structure PartialEmbeddingConfig where
  enableTFIDF : Option Bool := none
  enableStemming : Option Bool := none
  enableStopwordRemoval : Option Bool := none
  ngramSizes : Option (List ℤ) := none
  tfidfWeight : Option ℚ := none
  language : Option Language := none
  customStopwords : Option (List String) := none
  processingLimits : Option PartialProcessingLimits := none
  vocabularyOptions : Option VocabularyOptions := none
  tfidfOptions : Option TFIDFOptions := none
deriving DecidableEq, Repr

/-- Model of `DEFAULT_PROCESSING_LIMITS` (src/config/defaults.ts). -/
def DEFAULT_PROCESSING_LIMITS : ProcessingLimits :=
  { maxVocabularySize := 10000
    maxNgramSize := 3
    maxProcessingTimeMs := 5000
    maxChunkSize := 2048 }

/-- Model of `DEFAULT_EMBEDDING_CONFIG` (src/config/defaults.ts). -/
def DEFAULT_EMBEDDING_CONFIG : EmbeddingConfig :=
  { enableTFIDF := true
    enableStemming := false
    enableStopwordRemoval := true
    ngramSizes := [1, 2]
    tfidfWeight := mkRat 1 10
    language := some Language.english
    customStopwords := none
    processingLimits := DEFAULT_PROCESSING_LIMITS
    vocabularyOptions := some ⟨15000, 1, [1, 2]⟩
    tfidfOptions := some ⟨some false, some true, none⟩ }

/-- Validation result (`ConfigValidationResult` in src/types/config.ts). -/
structure ConfigValidationResult where
  isValid : Bool
  errors : List String
  sanitizedConfig : Option EmbeddingConfig
deriving DecidableEq, Repr

/-- Result of `validateProcessingLimits`. -/
structure LimitsValidation where
  isValid : Bool
  errors : List String
  sanitizedLimits : Option ProcessingLimits
deriving DecidableEq, Repr

/-- Model of `validateProcessingLimits` (src/config/validation.ts, lines
130-191).  The source mutates one field of a copy of the defaults per
`if`-block; since each block touches exactly one field, the net sanitized
record is assembled here field by field.  Valid sizes are capped (50000 /
30000 ms / 8192); the sanitized limits are exposed only when no field was
rejected. -/
def validateProcessingLimits (limits : PartialProcessingLimits) : LimitsValidation :=
  let vocabR : List String × ℤ :=
    match limits.maxVocabularySize with
    | none => ([], DEFAULT_PROCESSING_LIMITS.maxVocabularySize)
    | some n =>
      if n ≤ 0 then
        (["maxVocabularySize must be a positive integer"],
          DEFAULT_PROCESSING_LIMITS.maxVocabularySize)
      else ([], min n 50000)
  let ngramR : List String × ℤ :=
    match limits.maxNgramSize with
    | none => ([], DEFAULT_PROCESSING_LIMITS.maxNgramSize)
    | some n =>
      if n < 1 ∨ 5 < n then
        (["maxNgramSize must be an integer between 1 and 5"],
          DEFAULT_PROCESSING_LIMITS.maxNgramSize)
      else ([], n)
  let timeR : List String × ℤ :=
    match limits.maxProcessingTimeMs with
    | none => ([], DEFAULT_PROCESSING_LIMITS.maxProcessingTimeMs)
    | some n =>
      if n ≤ 0 then
        (["maxProcessingTimeMs must be a positive integer"],
          DEFAULT_PROCESSING_LIMITS.maxProcessingTimeMs)
      else ([], min n 30000)
  let chunkR : List String × ℤ :=
    match limits.maxChunkSize with
    | none => ([], DEFAULT_PROCESSING_LIMITS.maxChunkSize)
    | some n =>
      if n ≤ 0 then
        (["maxChunkSize must be a positive integer"],
          DEFAULT_PROCESSING_LIMITS.maxChunkSize)
      else ([], min n 8192)
  let errors := vocabR.1 ++ ngramR.1 ++ timeR.1 ++ chunkR.1
  { isValid := errors.isEmpty
    errors := errors
    sanitizedLimits :=
      if errors.isEmpty then some ⟨vocabR.2, ngramR.2, timeR.2, chunkR.2⟩ else none }

/-- Model of `validateEmbeddingConfig` (src/config/validation.ts, lines
15-125).  The source starts from a copy of the defaults and overwrites one
field per `if`-block; each block touches exactly one field, so the net
sanitized record is assembled here field by field.  In this typed model the
JS `typeof` checks cannot fail, so errors arise only from the range checks:
an empty or entirely-out-of-range `ngramSizes` (in-range entries `1..3` are
kept, deduplicated and sorted — single-digit values, so JS's lexicographic
`sort()` coincides with the numeric order), a `tfidfWeight` outside
`[0, 1]`, and out-of-range `processingLimits` fields.  Supplied
`customStopwords` are lowercased and trimmed; supplied `vocabularyOptions`
and `tfidfOptions` are not read at all, so the sanitized config always
carries the defaults for them.  The sanitized config is exposed only when
the error list is empty. -/
def validateEmbeddingConfig (config : PartialEmbeddingConfig) : ConfigValidationResult :=
  let ngramR : List String × List ℤ :=
    match config.ngramSizes with
    | none => ([], DEFAULT_EMBEDDING_CONFIG.ngramSizes)
    | some l =>
      if l = [] then (["ngramSizes cannot be empty"], DEFAULT_EMBEDDING_CONFIG.ngramSizes)
      else
        let validNgrams := l.filter
          (fun n => 1 ≤ n ∧ n ≤ DEFAULT_PROCESSING_LIMITS.maxNgramSize)
        if validNgrams = [] then
          (["ngramSizes must contain integers between 1 and 3"],
            DEFAULT_EMBEDDING_CONFIG.ngramSizes)
        else ([], stableSort (fun a b => a ≤ b) (jsDedup validNgrams))
  let weightR : List String × ℚ :=
    match config.tfidfWeight with
    | none => ([], DEFAULT_EMBEDDING_CONFIG.tfidfWeight)
    | some q =>
      if q < 0 ∨ 1 < q then
        (["tfidfWeight must be a number between 0 and 1"],
          DEFAULT_EMBEDDING_CONFIG.tfidfWeight)
      else ([], q)
  let limitsR : List String × ProcessingLimits :=
    match config.processingLimits with
    | none => ([], DEFAULT_PROCESSING_LIMITS)
    | some pl =>
      let lv := validateProcessingLimits pl
      if lv.isValid then ([], lv.sanitizedLimits.getD DEFAULT_PROCESSING_LIMITS)
      else (lv.errors, DEFAULT_PROCESSING_LIMITS)
  let errors := ngramR.1 ++ weightR.1 ++ limitsR.1
  let sanitized : EmbeddingConfig :=
    { enableTFIDF := config.enableTFIDF.getD DEFAULT_EMBEDDING_CONFIG.enableTFIDF
      enableStemming := config.enableStemming.getD DEFAULT_EMBEDDING_CONFIG.enableStemming
      enableStopwordRemoval :=
        config.enableStopwordRemoval.getD DEFAULT_EMBEDDING_CONFIG.enableStopwordRemoval
      ngramSizes := ngramR.2
      tfidfWeight := weightR.2
      language :=
        match config.language with
        | none => DEFAULT_EMBEDDING_CONFIG.language
        | some lang => some lang
      customStopwords :=
        match config.customStopwords with
        | none => DEFAULT_EMBEDDING_CONFIG.customStopwords
        | some ws => some (ws.map (fun w => jsTrim (jsToLower w)))
      processingLimits := limitsR.2
      vocabularyOptions := DEFAULT_EMBEDDING_CONFIG.vocabularyOptions
      tfidfOptions := DEFAULT_EMBEDDING_CONFIG.tfidfOptions }
  { isValid := errors.isEmpty
    errors := errors
    sanitizedConfig := if errors.isEmpty then some sanitized else none }

/-- Model of `mergeWithDefaults` (src/config/validation.ts, lines
196-210): on any validation error the entire caller configuration is
discarded and the full defaults are returned; otherwise the sanitized
config is used. -/
def mergeWithDefaults (userConfig : PartialEmbeddingConfig) : EmbeddingConfig :=
  let validation := validateEmbeddingConfig userConfig
  if validation.isValid then validation.sanitizedConfig.getD DEFAULT_EMBEDDING_CONFIG
  else DEFAULT_EMBEDDING_CONFIG

/-- A partial config mixing one out-of-range field (`tfidfWeight = 2`) with
one valid non-default field (`enableTFIDF = false`). -/
def partialMixed : PartialEmbeddingConfig :=
  { enableTFIDF := some false, tfidfWeight := some 2 }

/-- Counterexample to claim C7 as stated: with one invalid field
(`tfidfWeight = 2`) and one valid field (`enableTFIDF = false`), the
validator reports the error but exposes no sanitized config, and
`mergeWithDefaults` proceeds with the full defaults — the valid
caller-supplied `enableTFIDF = false` is discarded rather than kept. -/
theorem mergeWithDefaults_discards_valid_fields :
    (validateEmbeddingConfig partialMixed).errors
        = ["tfidfWeight must be a number between 0 and 1"]
      ∧ (validateEmbeddingConfig partialMixed).sanitizedConfig = none
      ∧ partialMixed.enableTFIDF = some false
      ∧ (mergeWithDefaults partialMixed).enableTFIDF = true := by
  decide

/-- Claim C7 (amended): validation is field-by-field only in the all-valid
case.  When no supplied field is out of range, the merged config keeps each
supplied field (`ngramSizes` filtered to `1..3`, deduplicated and sorted;
stopwords lowercased and trimmed; limits capped), and the error list is
empty.  When any field is invalid, the caller receives the list of
validation error strings, but the sanitized config is withheld and
`mergeWithDefaults` discards every caller-supplied field, proceeding with
the full default configuration. -/
theorem validateEmbeddingConfig_amended (config : PartialEmbeddingConfig) :
    ((validateEmbeddingConfig config).errors = [] →
        (∀ b, config.enableTFIDF = some b → (mergeWithDefaults config).enableTFIDF = b)
      ∧ (∀ b, config.enableStemming = some b →
          (mergeWithDefaults config).enableStemming = b)
      ∧ (∀ b, config.enableStopwordRemoval = some b →
          (mergeWithDefaults config).enableStopwordRemoval = b)
      ∧ (∀ q, config.tfidfWeight = some q → (mergeWithDefaults config).tfidfWeight = q)
      ∧ (∀ lang, config.language = some lang →
          (mergeWithDefaults config).language = some lang)
      ∧ (∀ ws, config.customStopwords = some ws →
          (mergeWithDefaults config).customStopwords
            = some (ws.map (fun w => jsTrim (jsToLower w))))
      ∧ (∀ l, config.ngramSizes = some l →
          (mergeWithDefaults config).ngramSizes
            = stableSort (fun a b => a ≤ b)
                (jsDedup (l.filter
                  (fun n => 1 ≤ n ∧ n ≤ DEFAULT_PROCESSING_LIMITS.maxNgramSize))))
      ∧ (∀ pl, config.processingLimits = some pl →
          (validateProcessingLimits pl).isValid = true
            ∧ (mergeWithDefaults config).processingLimits
              = (validateProcessingLimits pl).sanitizedLimits.getD
                  DEFAULT_PROCESSING_LIMITS))
    ∧ ((validateEmbeddingConfig config).errors ≠ [] →
        mergeWithDefaults config = DEFAULT_EMBEDDING_CONFIG) := by
  constructor
  · intro herr
    simp only [validateEmbeddingConfig] at herr
    obtain ⟨hng, hwt, hlim⟩ : _ ∧ _ ∧ _ := by
      rw [List.append_assoc, List.append_eq_nil, List.append_eq_nil] at herr
      exact ⟨herr.1, herr.2.1, herr.2.2⟩
    have hmerge0 : ∀ goal : EmbeddingConfig → Prop,
        (∀ sanitized, (validateEmbeddingConfig config).sanitizedConfig = some sanitized →
          goal sanitized) → goal (mergeWithDefaults config) := by
      intro goal hgoal
      simp only [mergeWithDefaults, validateEmbeddingConfig, hng, hwt, hlim,
        List.nil_append, List.append_nil, List.isEmpty_nil, if_true, Option.getD_some]
      exact hgoal _ (by
        simp only [validateEmbeddingConfig, hng, hwt, hlim, List.nil_append,
          List.append_nil, List.isEmpty_nil, if_true])
    refine ⟨?_, ?_, ?_, ?_, ?_, ?_, ?_, ?_⟩
    · intro b hb
      apply hmerge0 (fun cfg => cfg.enableTFIDF = b)
      intro sanitized hs
      simp only [validateEmbeddingConfig, hng, hwt, hlim, List.nil_append,
        List.append_nil, List.isEmpty_nil, if_true, Option.some.injEq] at hs
      rw [← hs]
      simp [hb]
    · intro b hb
      apply hmerge0 (fun cfg => cfg.enableStemming = b)
      intro sanitized hs
      simp only [validateEmbeddingConfig, hng, hwt, hlim, List.nil_append,
        List.append_nil, List.isEmpty_nil, if_true, Option.some.injEq] at hs
      rw [← hs]
      simp [hb]
    · intro b hb
      apply hmerge0 (fun cfg => cfg.enableStopwordRemoval = b)
      intro sanitized hs
      simp only [validateEmbeddingConfig, hng, hwt, hlim, List.nil_append,
        List.append_nil, List.isEmpty_nil, if_true, Option.some.injEq] at hs
      rw [← hs]
      simp [hb]
    · intro q hq
      apply hmerge0 (fun cfg => cfg.tfidfWeight = q)
      intro sanitized hs
      simp only [validateEmbeddingConfig, hng, hwt, hlim, List.nil_append,
        List.append_nil, List.isEmpty_nil, if_true, Option.some.injEq] at hs
      rw [← hs]
      simp only [hq] at hwt ⊢
      by_cases hrange : q < 0 ∨ 1 < q
      · rw [if_pos hrange] at hwt
        simp at hwt
      · simp [hrange]
    · intro lang hlang
      apply hmerge0 (fun cfg => cfg.language = some lang)
      intro sanitized hs
      simp only [validateEmbeddingConfig, hng, hwt, hlim, List.nil_append,
        List.append_nil, List.isEmpty_nil, if_true, Option.some.injEq] at hs
      rw [← hs]
      simp [hlang]
    · intro ws hws
      apply hmerge0 (fun cfg => cfg.customStopwords
        = some (ws.map (fun w => jsTrim (jsToLower w))))
      intro sanitized hs
      simp only [validateEmbeddingConfig, hng, hwt, hlim, List.nil_append,
        List.append_nil, List.isEmpty_nil, if_true, Option.some.injEq] at hs
      rw [← hs]
      simp [hws]
    · intro l hl
      apply hmerge0 (fun cfg => cfg.ngramSizes = stableSort (fun a b => a ≤ b)
        (jsDedup (l.filter (fun n => 1 ≤ n ∧ n ≤ DEFAULT_PROCESSING_LIMITS.maxNgramSize))))
      intro sanitized hs
      simp only [validateEmbeddingConfig, hng, hwt, hlim, List.nil_append,
        List.append_nil, List.isEmpty_nil, if_true, Option.some.injEq] at hs
      rw [← hs]
      simp only [hl] at hng ⊢
      by_cases hl0 : l = []
      · rw [if_pos hl0] at hng
        simp at hng
      · rw [if_neg hl0] at hng ⊢
        by_cases hv0 : l.filter
            (fun n => 1 ≤ n ∧ n ≤ DEFAULT_PROCESSING_LIMITS.maxNgramSize) = []
        · rw [if_pos hv0] at hng
          simp at hng
        · rw [if_neg hv0]
    · intro pl hpl
      have hlv : (validateProcessingLimits pl).isValid
          = (validateProcessingLimits pl).errors.isEmpty := by
        simp [validateProcessingLimits]
      have hlimCopy := hlim
      simp only [hpl] at hlimCopy
      have hvalid : (validateProcessingLimits pl).isValid = true := by
        by_cases hv : (validateProcessingLimits pl).isValid = true
        · exact hv
        · rw [if_neg hv] at hlimCopy
          have hLimErrs : (validateProcessingLimits pl).errors = [] := hlimCopy
          exact absurd (by rw [hlv, hLimErrs]; rfl) hv
      refine ⟨hvalid, ?_⟩
      apply hmerge0 (fun cfg => cfg.processingLimits
        = (validateProcessingLimits pl).sanitizedLimits.getD DEFAULT_PROCESSING_LIMITS)
      intro sanitized hs
      simp only [validateEmbeddingConfig, hng, hwt, hlim, List.nil_append,
        List.append_nil, List.isEmpty_nil, if_true, Option.some.injEq] at hs
      rw [← hs]
      simp only [hpl]
      simp [hvalid]
  · intro herr
    have hproj : (validateEmbeddingConfig config).isValid
        = (validateEmbeddingConfig config).errors.isEmpty := by
      simp [validateEmbeddingConfig]
    have hnotValid : (validateEmbeddingConfig config).isValid = false := by
      rcases h : (validateEmbeddingConfig config).errors with _ | ⟨e, es⟩
      · exact absurd h herr
      · rw [hproj, h]
        rfl
    simp [mergeWithDefaults, hnotValid]

/-- A partial config whose supplied fields are all valid (and non-default,
with unsorted duplicate-free-after-filtering n-gram sizes). -/
def partialValid : PartialEmbeddingConfig :=
  { enableTFIDF := some false, tfidfWeight := some (mkRat 1 2),
    ngramSizes := some [2, 1], language := some Language.portuguese }

/-- Witness for the amended C7: an all-valid partial config is merged
keeping each supplied field (n-gram sizes sorted), and a config with one
invalid field falls back to the full defaults. -/
theorem validateEmbeddingConfig_amended_witness :
    (validateEmbeddingConfig partialValid).errors = []
      ∧ (mergeWithDefaults partialValid).enableTFIDF = false
      ∧ (mergeWithDefaults partialValid).tfidfWeight = mkRat 1 2
      ∧ (mergeWithDefaults partialValid).ngramSizes = [1, 2]
      ∧ (validateEmbeddingConfig partialMixed).errors ≠ []
      ∧ mergeWithDefaults partialMixed = DEFAULT_EMBEDDING_CONFIG := by
  have h1 := (validateEmbeddingConfig_amended partialValid).1 (by decide)
  have h2 := (validateEmbeddingConfig_amended partialMixed).2 (by decide)
  have h3 := h1.2.2.2.2.2.2.1 [2, 1] rfl
  refine ⟨by decide, h1.1 false rfl, h1.2.2.2.1 (mkRat 1 2) rfl, ?_, by decide, h2⟩
  rw [h3]
  decide

/-- Whether `pat` occurs at the front of `l`. -/
def leadsWith : List Char → List Char → Bool
  | [], _ => true
  | _ :: _, [] => false
  | p :: ps, c :: cs => p == c && leadsWith ps cs

/-- Whether `pat` occurs anywhere in `l`. -/
def hasSub (pat : List Char) : List Char → Bool
  | [] => leadsWith pat []
  | c :: cs => leadsWith pat (c :: cs) || hasSub pat cs

/-- Model of JavaScript `str.includes(pat)`. -/
def containsSub (s pat : String) : Bool :=
  hasSub pat.data s.data

/-- Model of the regex test `/[a-z][A-Z]/.test(chunk)`: some lowercase
letter immediately followed by an uppercase letter. -/
def hasLowerUpper (s : String) : Bool :=
  (s.data.zip s.data.tail).any (fun p => p.1.isLower && p.2.isUpper)

/-- The enhanced embedding generator's `getDefaultConfig()` (the in-class
default, which differs from `DEFAULT_EMBEDDING_CONFIG` in its
`processingLimits.maxVocabularySize` and its absent `language`). -/
def enhancedDefaultConfig : EmbeddingConfig :=
  { enableTFIDF := true
    enableStemming := false
    enableStopwordRemoval := true
    ngramSizes := [1, 2]
    tfidfWeight := mkRat 1 10
    language := none
    customStopwords := none
    processingLimits := ⟨15000, 3, 5000, 2048⟩
    vocabularyOptions := some ⟨15000, 1, [1, 2]⟩
    tfidfOptions := some ⟨some false, some true, none⟩ }

/-- Model of `shouldOptimizeConfig` in the enhanced embedding generator:
the automatic optimization runs exactly when the config's `tfidfWeight` and
`ngramSizes` match the generator's defaults. -/
def shouldOptimizeConfig (config : EmbeddingConfig) : Bool :=
  config.tfidfWeight = enhancedDefaultConfig.tfidfWeight
    && config.ngramSizes = enhancedDefaultConfig.ngramSizes

/-- Model of `optimizeConfigForContent` in the enhanced embedding
generator.  The JS source starts with `const optimizedConfig = {
...baseConfig }` — a shallow copy: scalar fields and array references are
copied, but `optimizedConfig.vocabularyOptions` is the same object as
`baseConfig.vocabularyOptions`, so the assignments
`optimizedConfig.vocabularyOptions.maxVocabularySize = ...` and
`optimizedConfig.vocabularyOptions.ngramSizes = ...` write through to the
caller's config.  The second component of the result is the contents of
that shared `vocabularyOptions` object after the call (what the caller's
config now holds); the first component is the returned optimized config.
Steps, in source order: chunk count at most 3 caps `tfidfWeight` at 0.2;
code-like or technical content disables stemming and raises the shared
`maxVocabularySize` to at least 15000; average chunk length above 1000
appends 3-gram size (when absent) and writes the n-gram list into the
shared options, while average length below 200 restricts to sizes at most
2 and writes the list into the shared options.  (With an empty chunk list
the average is NaN in JS and neither length branch runs; in `ℚ` the
division yields `0`; the caller `generateEnhancedEmbeddings` returns before
optimizing when there are no chunks, so the model is only used with
non-empty `chunks`.) -/
def optimizeConfigForContent (chunks : List String) (baseConfig : EmbeddingConfig) :
    EmbeddingConfig × Option VocabularyOptions :=
  let totalLength : ℕ := (chunks.map (fun c => c.length)).sum
  let averageChunkLength : ℚ := mkRat (totalLength : ℤ) chunks.length
  let hasCodeBlocks := chunks.any (fun c =>
    containsSub c "```" || containsSub c "function"
      || containsSub c "const " || containsSub c "import ")
  let hasTechnicalTerms := chunks.any (fun c =>
    hasLowerUpper c || containsSub c "_" || containsSub c ".")
  let weight1 : ℚ :=
    if chunks.length ≤ 3 then min baseConfig.tfidfWeight (mkRat 2 10)
    else baseConfig.tfidfWeight
  let stemming1 : Bool :=
    if hasCodeBlocks || hasTechnicalTerms then false else baseConfig.enableStemming
  let vopts1 : Option VocabularyOptions :=
    if hasCodeBlocks || hasTechnicalTerms then
      match baseConfig.vocabularyOptions with
      | some vo => some { vo with maxVocabularySize := max vo.maxVocabularySize 15000 }
      | none => none
    else baseConfig.vocabularyOptions
  let step3 : List ℤ × Option VocabularyOptions :=
    if 1000 < averageChunkLength then
      if baseConfig.ngramSizes.contains 3 then (baseConfig.ngramSizes, vopts1)
      else
        let ns := baseConfig.ngramSizes ++ [3]
        (ns, match vopts1 with
          | some vo => some { vo with ngramSizes := ns }
          | none => none)
    else if averageChunkLength < 200 then
      let ns := baseConfig.ngramSizes.filter (fun n => n ≤ 2)
      (ns, match vopts1 with
        | some vo => some { vo with ngramSizes := ns }
        | none => none)
    else (baseConfig.ngramSizes, vopts1)
  ({ baseConfig with
      tfidfWeight := weight1
      enableStemming := stemming1
      ngramSizes := step3.1
      vocabularyOptions := step3.2 },
    step3.2)

/-- A caller config eligible for auto-optimization (default weight and
n-gram sizes) whose nested vocabulary options carry a small
`maxVocabularySize`. -/
def baseConfigShared : EmbeddingConfig :=
  { enhancedDefaultConfig with vocabularyOptions := some ⟨100, 1, [1, 2]⟩ }

/-- Claim C8 evaluated at the failing input: for content with a technical
token (`snake_case text`) and a caller config that `generateEnhancedEmbeddings`
does auto-optimize (`shouldOptimizeConfig` holds), the call rewrites the
caller's nested `vocabularyOptions` in place — after the call the shared
object holds `maxVocabularySize = 15000` instead of the caller's `100`.
The claim (and the spec's requirement that tuning must not mutate the
caller-supplied config) is right; the shallow copy `{ ...baseConfig }` in
the code fails to protect the nested object. -/
theorem optimizeConfigForContent_mutates_vocabularyOptions :
    shouldOptimizeConfig baseConfigShared = true
      ∧ baseConfigShared.vocabularyOptions = some ⟨100, 1, [1, 2]⟩
      ∧ (optimizeConfigForContent ["snake_case text"] baseConfigShared).2
          = some ⟨15000, 1, [1, 2]⟩
      ∧ (optimizeConfigForContent ["snake_case text"] baseConfigShared).2
          ≠ baseConfigShared.vocabularyOptions := by
  refine ⟨by decide, by decide, ?_, ?_⟩ <;> decide

end PagePilot
